import Mathlib

/-!
Shallow embedding of `preAssignment/ip_manager.py`.

The Python file defines two classes:
* `Address` — parses a textual CIDR address (value part split from an
  optional `/len` suffix, value zero-padded on the right to four
  dot-separated octets, then converted through `socket.inet_aton` /
  `struct.unpack` to a 32-bit big-endian integer), and answers
  containment queries (`__contains__`).
* `IPManager` — a dictionary from literal address text to `Address`,
  loaded from a CSV file and extended by appending CSV rows.

Machine integers are modelled as `Nat`/`Int`; fallible operations return
`Except PyErr`.  `socket.inet_aton` is an external libc call; it is
modelled here after the glibc implementation of `inet_aton(3)` (dotted
numbers in C notation — decimal, leading-`0` octal, `0x` hexadecimal —
at most four parts, each stored part at most 255, a numeral run parsed
by `strtoul` with base 0, and a terminating character that must be the
end of the string or ASCII whitespace, everything after a whitespace
terminator being ignored).  Python `int(...)` for the suffix of the
slash is modelled by `pyInt` (optional surrounding whitespace, optional
sign, decimal digits with single underscores between digits).
-/

deriving instance DecidableEq for Except

namespace IpMgr

/-- `'0' ≤ c ≤ '9'`. -/
def isDigitC (c : Char) : Bool := '0' ≤ c && c ≤ '9'

/-- Octal digit. -/
def isOctC (c : Char) : Bool := '0' ≤ c && c ≤ '7'

/-- Hexadecimal digit. -/
def isHexC (c : Char) : Bool := isDigitC c || ('a' ≤ c && c ≤ 'f') || ('A' ≤ c && c ≤ 'F')

/-- Numeric value of a decimal/octal digit character. -/
def charVal (c : Char) : Nat := c.toNat - 48

/-- Numeric value of a hexadecimal digit character. -/
def hexVal (c : Char) : Nat :=
  if isDigitC c then c.toNat - 48
  else if 'a' ≤ c && c ≤ 'f' then c.toNat - 87
  else c.toNat - 55

/-- C-locale `isspace` on ASCII characters. -/
def isSpaceC (c : Char) : Bool :=
  c = ' ' || c = '\t' || c = '\n' || c = Char.ofNat 11 || c = Char.ofNat 12 || c = '\r'

/-- Model of Python `str.split(sep)` for a single-character separator,
over character lists (`"".split(sep) = ['']`). -/
def splitOnC (sep : Char) : List Char → List (List Char)
  | [] => [[]]
  | c :: rest =>
    match splitOnC sep rest with
    | [] => [[c]]
    | t :: ts => if c = sep then [] :: t :: ts else (c :: t) :: ts

/-- Model of `sep.join(tokens)` for a single-character separator. -/
def joinC (sep : Char) : List (List Char) → List Char
  | [] => []
  | [t] => t
  | t :: ts => t ++ sep :: joinC sep ts

/-- Accumulate a run of digit characters into a number in the given
base, returning the value and the unconsumed remainder. -/
def numRun (isD : Char → Bool) (dv : Char → Nat) (base : Nat) : Nat → List Char → Nat × List Char
  | acc, [] => (acc, [])
  | acc, c :: rest =>
    if isD c then numRun isD dv base (acc * base + dv c) rest else (acc, c :: rest)

/-- `strtoul(cp, &end, 0)` as used by glibc `inet_aton` on a string whose
first character is a digit: `0x`/`0X` introduces hexadecimal (consuming
only the `0` when no hex digit follows), a leading `0` introduces octal,
otherwise decimal. -/
def strtoul0 (cs : List Char) : Nat × List Char :=
  match cs with
  | [] => (0, [])
  | c :: rest =>
    if c = '0' then
      match rest with
      | [] => (0, [])
      | c2 :: rest2 =>
        if c2 = 'x' || c2 = 'X' then
          match rest2 with
          | [] => (0, c2 :: rest2)
          | r :: _ => if isHexC r then numRun isHexC hexVal 16 0 rest2 else (0, c2 :: rest2)
        else numRun isOctC charVal 8 0 rest
    else numRun isDigitC charVal 10 0 cs

/-- glibc `inet_aton` trailing-character check: the character that ends
the last numeral must be the end of the string or ASCII whitespace
(everything after such a whitespace is ignored). -/
def trailOK : List Char → Bool
  | [] => true
  | c :: _ => c.toNat < 128 && isSpaceC c

/-- Bound on the final numeral, by the number of parts already stored
(`a` / `a.b` / `a.b.c` / `a.b.c.d` forms). -/
def atonMax : Nat → Nat
  | 0 => 4294967295
  | 1 => 16777215
  | 2 => 65535
  | _ => 255

/-- Combine the stored parts (network byte order, most significant
first) with the final numeral. -/
def atonCombine (parts : List Nat) (val : Nat) : Nat :=
  ((parts.foldl (fun acc p => acc * 256 + p) 0) <<< (8 * (4 - parts.length))) ||| val

/-- Final acceptance step of `inet_aton` after the last numeral. -/
def atonFin (parts : List Nat) (val : Nat) (rest : List Char) : Option Nat :=
  if trailOK rest && decide (val ≤ atonMax parts.length) then some (atonCombine parts val) else none

/-- Main loop of glibc `inet_aton`: parse a numeral; on `'.'` store it
(at most three stored parts, each at most 255) and continue, otherwise
run the final acceptance step. -/
def inetAtonGo : Nat → List Nat → List Char → Option Nat
  | fuel, parts, cs =>
    match cs with
    | [] => none
    | c :: _ =>
      if isDigitC c then
        match (strtoul0 cs).2 with
        | c2 :: rest2 =>
          if c2 = '.' then
            match fuel with
            | 0 => none
            | k + 1 =>
              if (strtoul0 cs).1 ≤ 255 then inetAtonGo k (parts ++ [(strtoul0 cs).1]) rest2
              else none
          else atonFin parts (strtoul0 cs).1 (c2 :: rest2)
        | [] => atonFin parts (strtoul0 cs).1 []
      else none

/-- `socket.inet_aton` composed with `struct.unpack('>I', ...)`:
the parsed 32-bit address as a natural number, or `none` on rejection. -/
def inetAton (cs : List Char) : Option Nat := inetAtonGo 3 [] cs

/-- Python whitespace stripped by `int(str)` (ASCII portion). -/
def isPyWS (c : Char) : Bool :=
  c = ' ' || c = '\t' || c = '\n' || c = '\r' || c = Char.ofNat 11 || c = Char.ofNat 12

/-- Strip leading and trailing whitespace. -/
def trimWS (cs : List Char) : List Char :=
  ((cs.dropWhile isPyWS).reverse.dropWhile isPyWS).reverse

/-- Digit part of Python `int(str)`: decimal digits with single
underscores allowed between digits. -/
def pyDigitsGo : Nat → List Char → Option Nat
  | acc, [] => some acc
  | acc, c :: rest =>
    if c = '_' then
      match rest with
      | [] => none
      | r :: rest2 => if isDigitC r then pyDigitsGo (acc * 10 + charVal r) rest2 else none
    else if isDigitC c then pyDigitsGo (acc * 10 + charVal c) rest
    else none

/-- Unsigned digit string for Python `int(str)` (must start with a digit). -/
def pyDigits : List Char → Option Nat
  | [] => none
  | c :: rest => if isDigitC c then pyDigitsGo (charVal c) rest else none

/-- Model of Python `int(str)` (base 10, ASCII): optional surrounding
whitespace, optional sign, digits with underscores. -/
def pyInt (s : String) : Option Int :=
  match trimWS s.data with
  | '-' :: rest => (pyDigits rest).map (fun n => -(n : Int))
  | '+' :: rest => (pyDigits rest).map (fun n => (n : Int))
  | cs => (pyDigits cs).map (fun n => (n : Int))

/-- Error kinds raised (or, for the spec's names, reported) by the code:
`invalidAddressFormat` is the `OSError` out of `socket.inet_aton`,
`invalidPfxFormat` the `ValueError` out of `int(prefix)`, `negShift`
the `ValueError` for a negative shift count in `__contains__`, and
`badRow` the `ValueError` from unpacking a CSV row that does not have
exactly two fields. -/
inductive PyErr where
  | invalidAddressFormat
  | invalidPfxFormat
  | negShift
  | badRow
deriving DecidableEq, Repr

/-- The `Address` object: `addr`, `note`, `value`, `cidr` keep the
Python slot names; the Python slot `prefix` is named `pfx` here. -/
structure Address where
  addr : String
  note : String
  value : Nat
  pfx : Int
  cidr : String
deriving DecidableEq, Repr

/-- Value part of `addr.split('/', 1)` (the whole string when there is
no slash). -/
def splitSlashVal (cs : List Char) : List Char :=
  if '/' ∈ cs then cs.takeWhile (fun c => c != '/') else cs

/-- Second part of `addr.split('/', 1)`, defaulting to `"32"`. -/
def splitSlashPfx (cs : List Char) : List Char :=
  if '/' ∈ cs then (cs.dropWhile (fun c => c != '/')).tail else ['3', '2']

/-- `Address._normalize_addr`: split on `'.'`, append `'0'` tokens up to
four, re-join with `'.'`. -/
def normalize_addr (cs : List Char) : List Char :=
  let toks := splitOnC '.' cs
  joinC '.' (toks ++ List.replicate (4 - toks.length) ['0'])

/-- `Address.__init__`: split off the prefix token, record
`cidr = value + '/' + prefix` (note: from the *unpadded* value), then
normalize the value, parse it with `inet_aton`, and parse the prefix
token with `int`. -/
def parseAddress (addr note : String) : Except PyErr Address :=
  let v := splitSlashVal addr.data
  let p := splitSlashPfx addr.data
  let cidr := String.mk (v ++ '/' :: p)
  match inetAton (normalize_addr v) with
  | none => .error .invalidAddressFormat
  | some value =>
    match pyInt (String.mk p) with
    | none => .error .invalidPfxFormat
    | some pi => .ok ⟨addr, note, value, pi, cidr⟩

/-- `Address.__contains__` with `self = a`, `other = b`: shift both
values right by `32 - self.prefix` and compare, and require
`self.prefix <= other.prefix`.  A negative shift count raises
`ValueError` in Python, modelled as `.error .negShift`. -/
def containsB (a b : Address) : Except PyErr Bool :=
  if 32 - a.pfx < 0 then .error .negShift
  else
    .ok (decide (a.value >>> (32 - a.pfx).toNat = b.value >>> (32 - a.pfx).toNat) &&
         decide (a.pfx ≤ b.pfx))

/-- Python `dict` lookup (`storage.get(address)`), on an association
list kept in insertion order. -/
def dictGet : List (String × Address) → String → Option Address
  | [], _ => none
  | (a, r) :: rest, k => if a = k then some r else dictGet rest k

/-- Python `address in storage` (key membership). -/
def dictHas (st : List (String × Address)) (k : String) : Bool := (dictGet st k).isSome

/-- Python `storage[address] = rec`: overwrite in place (a rewritten key
keeps its original position, as in a CPython dict), or append. -/
def upsert : List (String × Address) → String → Address → List (String × Address)
  | [], k, r => [(k, r)]
  | (a, r0) :: rest, k, r => if a = k then (a, r) :: rest else (a, r0) :: upsert rest k r

/-- Python `storage.values()` in insertion order. -/
def dictValues (st : List (String × Address)) : List Address := st.map (fun p => p.2)

/-- CSV quoting of one field body: double every embedded `"`. -/
def escQ : List Char → List Char
  | [] => []
  | c :: rest => if c = '"' then '"' :: '"' :: escQ rest else c :: escQ rest

/-- One row written by `csv.writer(fp, quotechar='"', quoting=csv.QUOTE_ALL)`:
both fields wrapped in quotes, separated by `,`, terminated by `\r\n`
(the writer's default `lineterminator`). -/
def encodeRowC (a n : List Char) : List Char :=
  '"' :: (escQ a ++ '"' :: ',' :: '"' :: (escQ n ++ '"' :: '\r' :: '\n' :: []))

/-- Concatenation of the rows the manager appends to its backing file. -/
def encodeRows : List (String × String) → List Char
  | [] => []
  | p :: rest => encodeRowC p.1.data p.2.data ++ encodeRows rest

/-- States of the CSV reading automaton (`csv.reader` over a text-mode
file with universal-newline translation): start of a record, start of a
field after a comma, inside an unquoted field, inside a quoted field,
just after a quote inside a quoted field, and just after a `\r` record
end (so that a following `\n` is absorbed). -/
inductive CsvMode where
  | recStart
  | fieldStart
  | inU
  | inQ
  | qq
  | crSkip
deriving DecidableEq, Repr

/-- CSV reading automaton.  Arguments: remaining input, state, current
field, fields of the current record, completed records. -/
def csvRun : List Char → CsvMode → List Char → List String → List (List String) → List (List String)
  | [], mode, f, fs, rows =>
    match mode with
    | .recStart => rows
    | .crSkip => rows
    | .fieldStart => rows ++ [fs ++ [String.mk f]]
    | .inU => rows ++ [fs ++ [String.mk f]]
    | .inQ => rows ++ [fs ++ [String.mk f]]
    | .qq => rows ++ [fs ++ [String.mk f]]
  | c :: rest, mode, f, fs, rows =>
    match mode with
    | .recStart =>
      if c = '\n' then csvRun rest .recStart [] [] (rows ++ [[]])
      else if c = '\r' then csvRun rest .crSkip [] [] (rows ++ [[]])
      else if c = ',' then csvRun rest .fieldStart [] [""] rows
      else if c = '"' then csvRun rest .inQ [] [] rows
      else csvRun rest .inU [c] [] rows
    | .fieldStart =>
      if c = '\n' then csvRun rest .recStart [] [] (rows ++ [fs ++ [""]])
      else if c = '\r' then csvRun rest .crSkip [] [] (rows ++ [fs ++ [""]])
      else if c = ',' then csvRun rest .fieldStart [] (fs ++ [""]) rows
      else if c = '"' then csvRun rest .inQ [] fs rows
      else csvRun rest .inU [c] fs rows
    | .inU =>
      if c = '\n' then csvRun rest .recStart [] [] (rows ++ [fs ++ [String.mk f]])
      else if c = '\r' then csvRun rest .crSkip [] [] (rows ++ [fs ++ [String.mk f]])
      else if c = ',' then csvRun rest .fieldStart [] (fs ++ [String.mk f]) rows
      else csvRun rest .inU (f ++ [c]) fs rows
    | .inQ =>
      if c = '"' then csvRun rest .qq f fs rows
      else csvRun rest .inQ (f ++ [c]) fs rows
    | .qq =>
      if c = '"' then csvRun rest .inQ (f ++ ['"']) fs rows
      else if c = '\n' then csvRun rest .recStart [] [] (rows ++ [fs ++ [String.mk f]])
      else if c = '\r' then csvRun rest .crSkip [] [] (rows ++ [fs ++ [String.mk f]])
      else if c = ',' then csvRun rest .fieldStart [] (fs ++ [String.mk f]) rows
      else csvRun rest .inU (f ++ [c]) fs rows
    | .crSkip =>
      if c = '\n' then csvRun rest .recStart [] [] rows
      else if c = '\r' then csvRun rest .crSkip [] [] (rows ++ [[]])
      else if c = ',' then csvRun rest .fieldStart [] [""] rows
      else if c = '"' then csvRun rest .inQ [] [] rows
      else csvRun rest .inU [c] [] rows

/-- The record list `csv.reader` produces from the file content. -/
def parseFileC (cs : List Char) : List (List String) := csvRun cs .recStart [] [] []

/-- The loading loop of `IPManager._load_storage`: each row must unpack
as `address, note = row` (exactly two fields), then
`storage[address] = Address(address, note)`. -/
def rowsFold : List (String × Address) → List (List String) → Except PyErr (List (String × Address))
  | st, [] => .ok st
  | st, row :: rest =>
    match row with
    | [a, n] =>
      match parseAddress a n with
      | .error e => .error e
      | .ok rec => rowsFold (upsert st a rec) rest
    | _ => .error .badRow

/-- `IPManager._load_storage` on the given file content. -/
def loadStorage (content : String) : Except PyErr (List (String × Address)) :=
  rowsFold [] (parseFileC content.data)

/-- The `IPManager` state: the backing file's content and the in-memory
`_storage` dictionary. -/
structure IPManager where
  file : String
  storage : List (String × Address)
deriving DecidableEq, Repr

/-- `IPManager.__init__` on existing file content (construction creates
an empty file when absent, i.e. content `""`). -/
def IPManager.init (content : String) : Except PyErr IPManager :=
  (loadStorage content).map (fun st => ⟨content, st⟩)

/-- Outcome of `IPManager.insert`: a silent skip for a duplicate key, a
printed (non-fatal) I/O failure, a successful insert, or a propagated
exception. -/
inductive InsOut where
  | inserted
  | duplicate
  | ioFailure
  | raised (e : PyErr)
deriving DecidableEq, Repr

/-- `IPManager.insert`.  `appendOk` models whether the append to the
backing file succeeds.  Mirrors the Python control flow: the duplicate
check comes first; the CSV row is written inside `try`; only the `else`
branch (after a successful write) constructs the `Address` — which may
raise — and updates the dictionary. -/
def IPManager.insert (m : IPManager) (address note : String) (appendOk : Bool) :
    IPManager × InsOut :=
  if dictHas m.storage address then (m, .duplicate)
  else if !appendOk then (m, .ioFailure)
  else
    let file2 := m.file ++ String.mk (encodeRowC address.data note.data)
    match parseAddress address note with
    | .error e => (⟨file2, m.storage⟩, .raised e)
    | .ok rec => (⟨file2, upsert m.storage address rec⟩, .inserted)

/-- `IPManager.lookup`. -/
def IPManager.lookup (m : IPManager) (address : String) : Option Address :=
  dictGet m.storage address

/-- The list comprehension of `addrs_by_cidr`, with the exception of a
failing `__contains__` propagating out of the scan. -/
def filterContains (c : Address) : List Address → Except PyErr (List Address)
  | [] => .ok []
  | a :: rest =>
    match containsB c a with
    | .error e => .error e
    | .ok b =>
      match filterContains c rest with
      | .error e => .error e
      | .ok l => .ok (if b then a :: l else l)

/-- `IPManager.addrs_by_cidr`: build a transient `Address` from the
CIDR text and keep the stored records it contains. -/
def IPManager.addrs_by_cidr (m : IPManager) (cidr : String) : Except PyErr (List Address) :=
  match parseAddress cidr "" with
  | .error e => .error e
  | .ok c => filterContains c (dictValues m.storage)

/-- Prefix test on character lists (used to model Python's substring
operator). -/
def isPrefOf : List Char → List Char → Bool
  | [], _ => true
  | _ :: _, [] => false
  | a :: as, b :: bs => a = b && isPrefOf as bs

/-- Python's substring operator `sub in s`. -/
def pyIn (sub s : String) : Bool :=
  (List.range (s.data.length + 1)).any (fun i => isPrefOf sub.data (s.data.drop i))

/-- `IPManager.addrs_by_note`: stored records whose note has the given
substring. -/
def IPManager.addrs_by_note (m : IPManager) (note : String) : List Address :=
  (dictValues m.storage).filter (fun r => pyIn note r.note)

/-! Specification-side definitions (phrased from the spec's words, to be
compared with the code model above). -/

/-- Decimal value of a digit string. -/
def decVal (t : List Char) : Nat := t.foldl (fun a c => a * 10 + charVal c) 0

/-- One plain decimal token that is "an integer in [0, 255]". -/
def decTokenB (t : List Char) : Bool := !t.isEmpty && t.all isDigitC && decide (decVal t ≤ 255)

/-- The spec's acceptance predicate for C8: the string decomposes into
exactly four dot-separated integers, each in [0, 255]. -/
def decomposesFourOctets (cs : List Char) : Bool :=
  (splitOnC '.' cs).length == 4 && (splitOnC '.' cs).all decTokenB

/-- A decimal octet token in strict form: nonempty, all decimal digits,
no leading zero (except the token `"0"` itself), value at most 255. -/
def strictTok (t : List Char) : Prop :=
  t ≠ [] ∧ (∀ c ∈ t, isDigitC c = true) ∧ (t = ['0'] ∨ t.head? ≠ some '0') ∧ decVal t ≤ 255

/-- Shape claimed for `canonicalForm`: a value part of exactly four
dot-separated octet tokens, followed by `/` and a prefix token. -/
def fourOctetSlash (s : String) : Bool :=
  ((splitOnC '.' (s.data.takeWhile (fun c => c != '/'))).length == 4) && s.data.contains '/'

/-- The spec's containment test (§4.1), with the "top `prefixLength`
bits" comparison written as division by a power of two. -/
def specContainsB (c r : Address) : Bool :=
  decide (c.value / 2 ^ (32 - c.pfx).toNat = r.value / 2 ^ (32 - c.pfx).toNat) &&
  decide (c.pfx ≤ r.pfx)

/-- Head of a list is not a decimal digit (or the list is empty). -/
def headNotDigit : List Char → Prop
  | [] => True
  | c :: _ => isDigitC c = false

/-! Concrete records used by witnesses and counterexamples.  Each one is
the value `parseAddress` computes for the quoted input (checked by the
theorems below). -/

/-- Record for `"137.43.4.18"` with note `"host"`. -/
def rec18 : Address := ⟨"137.43.4.18", "host", 2301297682, 32, "137.43.4.18/32"⟩

/-- Record for `"137.43.4.19"` with note `"host"`. -/
def rec19 : Address := ⟨"137.43.4.19", "host", 2301297683, 32, "137.43.4.19/32"⟩

/-- Record for `"137.43.4.20/32"` with note `"host/cidr"`. -/
def rec20 : Address := ⟨"137.43.4.20/32", "host/cidr", 2301297684, 32, "137.43.4.20/32"⟩

/-- Record for `"137.43/16"` with note `"net"`. -/
def recNet : Address := ⟨"137.43/16", "net", 2301296640, 16, "137.43/16"⟩

/-- Record for the transient CIDR `"137.43.4/24"`. -/
def rec24 : Address := ⟨"137.43.4/24", "", 2301297664, 24, "137.43.4/24"⟩

/-- Record for the two-octet input `"137.43"`. -/
def recShort : Address := ⟨"137.43", "", 2301296640, 32, "137.43/32"⟩

/-- Record for `"0.0.0.0/0"`. -/
def rec0 : Address := ⟨"0.0.0.0/0", "", 0, 0, "0.0.0.0/0"⟩

/-- Record for the input "1.2.3.4" with suffix "-1" (a negative prefix
parses). -/
def recNeg : Address := ⟨"1.2.3.4/-1", "", 16909060, -1, "1.2.3.4/-1"⟩

/-- Record for `"200.1.2.3/32"`. -/
def rec200 : Address := ⟨"200.1.2.3/32", "", 3355509251, 32, "200.1.2.3/32"⟩

/-- Record for `"1.2.3.4/40"` (an out-of-range prefix parses). -/
def rec40 : Address := ⟨"1.2.3.4/40", "", 16909060, 40, "1.2.3.4/40"⟩

/-- Record for `"1.2.3.4 junk"` (accepted by `inet_aton` because the
character after the last numeral is a space). -/
def recJunk : Address := ⟨"1.2.3.4 junk", "", 16909060, 32, "1.2.3.4 junk/32"⟩

/-- Record for `"10.0/16"`. -/
def rec16 : Address := ⟨"10.0/16", "", 167772160, 16, "10.0/16"⟩

/-- Record for `"10.0.0.1/32"`. -/
def rec32 : Address := ⟨"10.0.0.1/32", "", 167772161, 32, "10.0.0.1/32"⟩

/-- Record for `"10.0.0.1"` (no explicit prefix). -/
def rec10 : Address := ⟨"10.0.0.1", "", 167772161, 32, "10.0.0.1/32"⟩

/-- A concrete store with the four entries of the module's demo driver. -/
def demoStore : IPManager :=
  ⟨"", [("137.43.4.18", rec18), ("137.43.4.19", rec19),
        ("137.43.4.20/32", rec20), ("137.43/16", recNet)]⟩

/-! Helper lemmas. -/

/-- Filtering by containment never raises when the reference prefix is
at most 32, and agrees with the spec-side predicate. -/
theorem filterContains_eq (c : Address) (h32 : c.pfx ≤ 32) (l : List Address) :
    filterContains c l = .ok (l.filter (fun r => specContainsB c r)) := by
  have hn : ¬ (32 - c.pfx < 0) := by omega
  induction l with
  | nil => simp [filterContains]
  | cons a rest ih =>
    simp only [filterContains, containsB, hn, if_false, ih, List.filter_cons]
    simp [specContainsB, Nat.shiftRight_eq_div_pow]

/-- A member of `takeWhile p l` satisfies `p`. -/
theorem mem_takeWhile_pred (p : Char → Bool) (l : List Char) (a : Char)
    (h : a ∈ l.takeWhile p) : p a = true := by
  induction l with
  | nil => simp [List.takeWhile] at h
  | cons c cs ih =>
    rw [List.takeWhile_cons] at h
    by_cases hp : p c
    · rw [if_pos hp] at h
      rcases List.mem_cons.mp h with h1 | h2
      · rwa [h1]
      · exact ih h2
    · rw [if_neg hp] at h
      simp at h

/-- The value part of the split never holds a slash. -/
theorem slash_not_mem_val (cs : List Char) : '/' ∉ splitSlashVal cs := by
  unfold splitSlashVal
  split
  · intro hmem
    have := mem_takeWhile_pred _ _ _ hmem
    simp at this
  · next h => exact h

/-- `takeWhile` up to the first slash recovers a slash-free value part. -/
theorem takeWhile_val_append (v p : List Char) (hv : '/' ∉ v) :
    (v ++ '/' :: p).takeWhile (fun c => c != '/') = v := by
  induction v with
  | nil => simp
  | cons c cs ih =>
    have hc : c ≠ '/' := fun hc => hv (by rw [hc]; exact List.mem_cons_self _ _)
    have hcs : '/' ∉ cs := fun hmem => hv (List.mem_cons_of_mem _ hmem)
    simp only [List.cons_append, List.takeWhile_cons]
    rw [if_pos (by simp [hc]), ih hcs]

/-- `isPrefOf` decides the prefix relation. -/
theorem isPrefOf_iff (a b : List Char) : isPrefOf a b = true ↔ a <+: b := by
  induction a generalizing b with
  | nil => simp [isPrefOf]
  | cons x xs ih =>
    cases b with
    | nil => simp [isPrefOf]
    | cons y ys =>
      simp only [isPrefOf, Bool.and_eq_true, decide_eq_true_eq, ih, List.cons_prefix_cons]

/-- `pyIn` decides the infix (substring) relation. -/
theorem pyIn_iff (sub s : String) : pyIn sub s = true ↔ sub.data <:+: s.data := by
  unfold pyIn
  simp only [List.any_eq_true, List.mem_range, isPrefOf_iff]
  constructor
  · rintro ⟨i, _hi, t, ht⟩
    exact ⟨s.data.take i, t, by rw [List.append_assoc, ht, List.take_append_drop]⟩
  · rintro ⟨u, t, hut⟩
    refine ⟨u.length, ?_, t, ?_⟩
    · have := congrArg List.length hut
      rw [List.length_append, List.length_append] at this
      omega
    · rw [← hut, List.append_assoc, List.drop_left]

/-- A digit run consumes exactly a block of its digits. -/
theorem numRun_spec (isD : Char → Bool) (dv : Char → Nat) (base : Nat)
    (t rest : List Char) (acc : Nat)
    (ht : ∀ c ∈ t, isD c = true)
    (hrest : ∀ c, rest.head? = some c → isD c = false) :
    numRun isD dv base acc (t ++ rest) =
      (t.foldl (fun a c => a * base + dv c) acc, rest) := by
  induction t generalizing acc with
  | nil =>
    cases rest with
    | nil => simp [numRun]
    | cons c r =>
      have := hrest c rfl
      simp [numRun, this]
  | cons d t0 ih =>
    have hd : isD d = true := ht d (List.mem_cons_self _ _)
    simp only [List.cons_append, numRun, hd, if_true, List.foldl_cons]
    exact ih _ (fun c hc => ht c (List.mem_cons_of_mem _ hc))

/-- `strtoul` with base 0 on a strict decimal token followed by a dot
or the end of the string consumes exactly the token. -/
theorem strtoul0_strict (t rest : List Char)
    (hne : t ≠ []) (hdig : ∀ c ∈ t, isDigitC c = true)
    (hz : t = ['0'] ∨ t.head? ≠ some '0')
    (hrest : rest = [] ∨ ∃ r', rest = '.' :: r') :
    strtoul0 (t ++ rest) = (decVal t, rest) := by
  rcases hz with h0 | hz
  · subst h0
    rcases hrest with rfl | ⟨r', rfl⟩
    · decide
    · simp [strtoul0, numRun, isOctC, decVal, charVal]
  · cases t with
    | nil => exact absurd rfl hne
    | cons d t0 =>
      have hd0 : ¬ (d = '0') := fun h => hz (by rw [h]; rfl)
      have hhead : ∀ c, rest.head? = some c → isDigitC c = false := by
        rcases hrest with rfl | ⟨r', rfl⟩
        · intro c h; simp at h
        · intro c h
          simp only [List.head?] at h
          cases h
          decide
      simp only [List.cons_append, strtoul0, hd0, if_false]
      rw [← List.cons_append]
      exact numRun_spec _ _ _ _ _ _ hdig hhead

/-- One loop iteration of `inet_aton` over a strict octet token
followed by a dot. -/
theorem inetAtonStep (k : Nat) (parts : List Nat) (t rest2 : List Char)
    (h : strictTok t) :
    inetAtonGo (k + 1) parts (t ++ '.' :: rest2) = inetAtonGo k (parts ++ [decVal t]) rest2 := by
  obtain ⟨hne, hdig, hz, hle⟩ := h
  cases t with
  | nil => exact absurd rfl hne
  | cons c t0 =>
    have hs : strtoul0 (c :: (t0 ++ '.' :: rest2)) = (decVal (c :: t0), '.' :: rest2) := by
      rw [← List.cons_append]
      exact strtoul0_strict _ _ hne hdig hz (Or.inr ⟨rest2, rfl⟩)
    have hc : isDigitC c = true := hdig c (List.mem_cons_self _ _)
    simp only [List.cons_append, inetAtonGo, hc, if_true, hs]
    simp [hle]

/-- The last loop iteration of `inet_aton` over a strict octet token at
the end of the input. -/
theorem inetAtonFinStep (fuel : Nat) (parts : List Nat) (t : List Char)
    (h : strictTok t) :
    inetAtonGo fuel parts t = atonFin parts (decVal t) [] := by
  obtain ⟨hne, hdig, hz, hle⟩ := h
  cases t with
  | nil => exact absurd rfl hne
  | cons c t0 =>
    have hs : strtoul0 (c :: t0) = (decVal (c :: t0), []) := by
      have := strtoul0_strict (c :: t0) [] hne hdig hz (Or.inl rfl)
      rwa [List.append_nil] at this
    have hc : isDigitC c = true := hdig c (List.mem_cons_self _ _)
    simp only [inetAtonGo, hc, if_true, hs]

/-- The bound on the final numeral is at least 255 for any part count. -/
theorem atonMax_ge : ∀ n : Nat, 255 ≤ atonMax n
  | 0 => by decide
  | 1 => by decide
  | 2 => by decide
  | (_ + 3) => Nat.le_refl _

/-- Structure eta for strings. -/
theorem string_mk_data (s : String) : String.mk s.data = s := rfl

/-- String append is list append of the data. -/
theorem string_mk_append (l1 l2 : List Char) :
    String.mk l1 ++ String.mk l2 = String.mk (l1 ++ l2) := rfl

/-- Automaton step: a quote inside a quoted field. -/
theorem csvRun_inQ_quote (rest f : List Char) (fs : List String) (rows : List (List String)) :
    csvRun ('"' :: rest) .inQ f fs rows = csvRun rest .qq f fs rows := by
  simp [csvRun]

/-- Automaton step: an ordinary character inside a quoted field. -/
theorem csvRun_inQ_char (c : Char) (hc : c ≠ '"') (rest f : List Char) (fs : List String)
    (rows : List (List String)) :
    csvRun (c :: rest) .inQ f fs rows = csvRun rest .inQ (f ++ [c]) fs rows := by
  simp [csvRun, hc]

/-- Automaton step: a second quote right after a quote inside a quoted
field (escaped quote). -/
theorem csvRun_qq_quote (rest f : List Char) (fs : List String) (rows : List (List String)) :
    csvRun ('"' :: rest) .qq f fs rows = csvRun rest .inQ (f ++ ['"']) fs rows := by
  simp [csvRun]

/-- Inside a quoted field, the automaton consumes an escaped body up to
its closing quote and accumulates exactly the unescaped body. -/
theorem csvRun_escQ (s : List Char) (rest f : List Char) (fs : List String)
    (rows : List (List String)) :
    csvRun (escQ s ++ '"' :: rest) .inQ f fs rows = csvRun rest .qq (f ++ s) fs rows := by
  induction s generalizing f with
  | nil =>
    rw [show escQ [] ++ '"' :: rest = '"' :: rest from rfl, csvRun_inQ_quote]
    simp
  | cons c cs ih =>
    by_cases hc : c = '"'
    · subst hc
      rw [show escQ ('"' :: cs) = '"' :: '"' :: escQ cs from rfl,
          List.cons_append, List.cons_append, csvRun_inQ_quote, csvRun_qq_quote, ih]
      simp
    · rw [show escQ (c :: cs) = c :: escQ cs from by simp [escQ, hc],
          List.cons_append, csvRun_inQ_char c hc, ih]
      simp

/-- The automaton consumes one encoded row and appends one record. -/
theorem csvRun_row (a n rest : List Char) (rows : List (List String)) :
    csvRun (encodeRowC a n ++ rest) .recStart [] [] rows
      = csvRun rest .recStart [] [] (rows ++ [[String.mk a, String.mk n]]) := by
  show csvRun ('"' :: ((escQ a ++ '"' :: ',' :: '"' :: (escQ n ++ '"' :: '\r' :: '\n' :: [])) ++ rest))
        .recStart [] [] rows = _
  have hshape : (escQ a ++ '"' :: ',' :: '"' :: (escQ n ++ '"' :: '\r' :: '\n' :: [])) ++ rest
      = escQ a ++ '"' :: ',' :: '"' :: (escQ n ++ '"' :: '\r' :: '\n' :: rest) := by
    simp [List.append_assoc]
  rw [hshape]
  have h1 : csvRun ('"' :: (escQ a ++ '"' :: ',' :: '"' :: (escQ n ++ '"' :: '\r' :: '\n' :: rest)))
      .recStart [] [] rows
      = csvRun (escQ a ++ '"' :: (',' :: '"' :: (escQ n ++ '"' :: '\r' :: '\n' :: rest)))
        .inQ [] [] rows := by
    simp [csvRun]
  rw [h1, csvRun_escQ]
  have h2 : csvRun (',' :: '"' :: (escQ n ++ '"' :: '\r' :: '\n' :: rest)) .qq ([] ++ a) [] rows
      = csvRun (escQ n ++ '"' :: ('\r' :: '\n' :: rest)) .inQ [] [String.mk a] rows := by
    simp [csvRun]
  rw [h2, csvRun_escQ]
  simp [csvRun]

/-- The automaton consumes a concatenation of encoded rows and appends
the corresponding records. -/
theorem csvRun_rows (rs : List (String × String)) (rest : List Char)
    (rows : List (List String)) :
    csvRun (encodeRows rs ++ rest) .recStart [] [] rows
      = csvRun rest .recStart [] [] (rows ++ rs.map (fun p => [p.1, p.2])) := by
  induction rs generalizing rows with
  | nil => simp [encodeRows]
  | cons p ps ih =>
    simp only [encodeRows, List.append_assoc]
    rw [csvRun_row, ih]
    simp [string_mk_data]

/-- Reading back an encoded row list recovers exactly the rows. -/
theorem parseFile_encodeRows (rs : List (String × String)) :
    parseFileC (encodeRows rs) = rs.map (fun p => [p.1, p.2]) := by
  have h := csvRun_rows rs [] []
  rw [List.append_nil] at h
  unfold parseFileC
  rw [h]
  rfl

/-- `encodeRows` distributes over append. -/
theorem encodeRows_append (xs ys : List (String × String)) :
    encodeRows (xs ++ ys) = encodeRows xs ++ encodeRows ys := by
  induction xs with
  | nil => simp [encodeRows]
  | cons p ps ih => simp [encodeRows, ih]

/-- The loading fold continues past a successfully loaded block. -/
theorem rowsFold_append (st st' : List (String × Address)) (l1 l2 : List (List String))
    (h : rowsFold st l1 = .ok st') :
    rowsFold st (l1 ++ l2) = rowsFold st' l2 := by
  induction l1 generalizing st with
  | nil =>
    simp only [rowsFold, Except.ok.injEq] at h
    rw [List.nil_append, h]
  | cons row rows ih =>
    match row with
    | [] => simp [rowsFold] at h
    | [a] => simp [rowsFold] at h
    | [a, n] =>
      simp only [rowsFold] at h ⊢
      cases hpa : parseAddress a n with
      | error e => rw [hpa] at h; simp at h
      | ok rec =>
        rw [hpa] at h
        exact ih _ h
    | a :: n :: x :: r => simp [rowsFold] at h

/-- Looking up a freshly upserted key finds the new record. -/
theorem dictGet_upsert_self (st : List (String × Address)) (k : String) (r : Address)
    (h : dictGet st k = none) :
    dictGet (upsert st k r) k = some r := by
  induction st with
  | nil => simp [upsert, dictGet]
  | cons p rest ih =>
    obtain ⟨a, r0⟩ := p
    by_cases hp : a = k
    · simp [dictGet, hp] at h
    · simp only [dictGet, hp, if_false] at h
      simp only [upsert, hp, if_false, dictGet]
      exact ih h

/-- The note stored in a parsed record is the note argument. -/
theorem parseAddress_note (a n : String) (r : Address)
    (h : parseAddress a n = .ok r) : r.note = n := by
  simp only [parseAddress] at h
  cases hA : inetAton (normalize_addr (splitSlashVal a.data)) with
  | none => rw [hA] at h; simp at h
  | some v =>
    rw [hA] at h
    cases hP : pyInt (String.mk (splitSlashPfx a.data)) with
    | none => rw [hP] at h; simp at h
    | some p =>
      rw [hP] at h
      simp only [Except.ok.injEq] at h
      rw [← h]

/-! Claim theorems. -/

/-- Claim C1 counterexample: the two-octet input `"137.43"` is valid
(construction succeeds), yet its `cidr` is `"137.43/32"` — the value
part is joined *before* zero-padding, so the canonical form does not
have four octets, and differs from the padded `"137.43.0.0"` joined
with the prefix. -/
theorem claim_C1_counterexample :
    parseAddress "137.43" "" = .ok recShort ∧
    recShort.cidr = "137.43/32" ∧
    fourOctetSlash recShort.cidr = false ∧
    String.mk (normalize_addr (splitSlashVal "137.43".data)) = "137.43.0.0" ∧
    recShort.cidr ≠ "137.43.0.0/32" := by
  decide

/-- Claim C1 (amended): `cidr` is the *unpadded* value part joined with
`/` and the prefix token; it has exactly four octets precisely when the
input's value part already had four dot-separated tokens. -/
theorem claim_C1_canonical (addr note : String) (r : Address)
    (h : parseAddress addr note = .ok r) :
    r.cidr = String.mk (splitSlashVal addr.data ++ '/' :: splitSlashPfx addr.data) ∧
    ((splitOnC '.' (splitSlashVal addr.data)).length = 4 → fourOctetSlash r.cidr = true) := by
  have hcidr : r.cidr = String.mk (splitSlashVal addr.data ++ '/' :: splitSlashPfx addr.data) := by
    simp only [parseAddress] at h
    cases hA : inetAton (normalize_addr (splitSlashVal addr.data)) with
    | none => rw [hA] at h; simp at h
    | some v =>
      rw [hA] at h
      cases hP : pyInt (String.mk (splitSlashPfx addr.data)) with
      | none => rw [hP] at h; simp at h
      | some p =>
        rw [hP] at h
        simp only [Except.ok.injEq] at h
        rw [← h]
  refine ⟨hcidr, fun h4 => ?_⟩
  rw [hcidr]
  unfold fourOctetSlash
  have hdata : (String.mk (splitSlashVal addr.data ++ '/' :: splitSlashPfx addr.data)).data
      = splitSlashVal addr.data ++ '/' :: splitSlashPfx addr.data := rfl
  rw [hdata, takeWhile_val_append _ _ (slash_not_mem_val addr.data), h4]
  simp [List.contains, List.elem_eq_true_of_mem]

/-- Witness for C1: on the four-octet input `"10.0.0.1"` the canonical
form is the value joined with the defaulted prefix and does have four
octets. -/
theorem claim_C1_canonical_witness :
    rec10.cidr = String.mk (splitSlashVal "10.0.0.1".data ++ '/' :: splitSlashPfx "10.0.0.1".data) ∧
    fourOctetSlash rec10.cidr = true :=
  ⟨(claim_C1_canonical "10.0.0.1" "" rec10 (by decide)).1,
   (claim_C1_canonical "10.0.0.1" "" rec10 (by decide)).2 (by decide)⟩

/-- Claim C8 counterexample: acceptance is *not* "exactly four decimal
integers in [0, 255]" in either direction.  `"08.1.1.1"` decomposes
into four in-range integers but is rejected (`strtoul` parses `08` as
octal `0` and stops at the `8`), while `"1.2.3.4 junk"` does not
decompose yet is accepted (the character after the last numeral is a
space, and `inet_aton` ignores the rest). -/
theorem claim_C8_counterexample :
    decomposesFourOctets (normalize_addr (splitSlashVal "08.1.1.1".data)) = true ∧
    parseAddress "08.1.1.1" "" = .error .invalidAddressFormat ∧
    decomposesFourOctets (normalize_addr (splitSlashVal "1.2.3.4 junk".data)) = false ∧
    parseAddress "1.2.3.4 junk" "" = .ok recJunk := by
  decide

/-- Claim C8 (amended): construction fails with `InvalidAddressFormat`
exactly when `inet_aton` rejects the padded value part; in particular
`"999.1.1.1"` fails, and every string of four dot-separated strict
decimal octets (no leading zeros, each at most 255) is accepted. -/
theorem claim_C8_accept :
    (∀ addr note : String,
       parseAddress addr note = .error .invalidAddressFormat ↔
       inetAton (normalize_addr (splitSlashVal addr.data)) = none) ∧
    parseAddress "999.1.1.1" "" = .error .invalidAddressFormat ∧
    (∀ t1 t2 t3 t4 : List Char,
       strictTok t1 → strictTok t2 → strictTok t3 → strictTok t4 →
       (inetAton (t1 ++ '.' :: (t2 ++ '.' :: (t3 ++ '.' :: t4)))).isSome = true) := by
  refine ⟨?_, by decide, ?_⟩
  · intro addr note
    simp only [parseAddress]
    cases hA : inetAton (normalize_addr (splitSlashVal addr.data)) with
    | none => simp
    | some v =>
      cases hP : pyInt (String.mk (splitSlashPfx addr.data)) with
      | none => simp
      | some p => simp
  · intro t1 t2 t3 t4 h1 h2 h3 h4
    unfold inetAton
    rw [inetAtonStep 2 [] t1 _ h1, inetAtonStep 1 _ t2 _ h2, inetAtonStep 0 _ t3 _ h3,
        inetAtonFinStep 0 _ t4 h4]
    unfold atonFin
    rw [if_pos ?_]
    · rfl
    · have hlen : (([] ++ [decVal t1]) ++ [decVal t2] ++ [decVal t3]).length = 3 := by simp
      rw [hlen]
      simp [trailOK, atonMax, h4.2.2.2]

/-- Witness for C8: four strict octets are accepted. -/
theorem claim_C8_accept_witness :
    (inetAton (['2', '5', '0'] ++ '.' :: (['1'] ++ '.' :: (['0'] ++ '.' :: ['2', '5', '5'])))).isSome
      = true :=
  claim_C8_accept.2.2 ['2', '5', '0'] ['1'] ['0'] ['2', '5', '5']
    (by unfold strictTok; decide) (by unfold strictTok; decide)
    (by unfold strictTok; decide) (by unfold strictTok; decide)

/-- Claim C9: `addrs_by_note` returns exactly the stored records whose
note contains the given string as a literal (case-sensitive) substring,
and the empty substring matches every stored record. -/
theorem claim_C9_addrs_by_note :
    (∀ (m : IPManager) (sub : String) (r : Address),
       r ∈ m.addrs_by_note sub ↔ r ∈ dictValues m.storage ∧ sub.data <:+: r.note.data) ∧
    (∀ m : IPManager, m.addrs_by_note "" = dictValues m.storage) := by
  constructor
  · intro m sub r
    simp [IPManager.addrs_by_note, List.mem_filter, pyIn_iff]
  · intro m
    unfold IPManager.addrs_by_note
    rw [List.filter_eq_self]
    intro r _hr
    rw [pyIn_iff]
    exact List.nil_infix

/-- Claim C2: for records `a`, `b` with `0 ≤ a.pfx ≤ 32`,
`a.__contains__ b` is true iff the top `a.pfx` bits of the two values
(value divided by `2 ^ (32 - a.pfx)`) agree and `a.pfx ≤ b.pfx`. -/
theorem claim_C2_contains_iff (a b : Address) (h0 : 0 ≤ a.pfx) (h32 : a.pfx ≤ 32) :
    containsB a b = .ok true ↔
      (a.value / 2 ^ (32 - a.pfx).toNat = b.value / 2 ^ (32 - a.pfx).toNat ∧ a.pfx ≤ b.pfx) := by
  have hn : ¬ (32 - a.pfx < 0) := by omega
  simp [containsB, hn, Nat.shiftRight_eq_div_pow]

/-- Witness for C2: the spec's three examples — a /16 network contains a
/32 host it covers, the /32 host does not contain the /16 network, and
containment is reflexive at equal prefix. -/
theorem claim_C2_contains_iff_witness :
    parseAddress "10.0/16" "" = .ok rec16 ∧
    parseAddress "10.0.0.1/32" "" = .ok rec32 ∧
    containsB rec16 rec32 = .ok true ∧
    containsB rec32 rec16 ≠ .ok true ∧
    containsB rec32 rec32 = .ok true := by
  refine ⟨by decide, by decide, ?_, ?_, ?_⟩
  · exact (claim_C2_contains_iff rec16 rec32 (by decide) (by decide)).mpr (by decide)
  · intro h
    exact absurd ((claim_C2_contains_iff rec32 rec16 (by decide) (by decide)).mp h) (by decide)
  · exact (claim_C2_contains_iff rec32 rec32 (by decide) (by decide)).mpr (by decide)

/-- Claim C3: for a well-formed CIDR (its parsed prefix at most 32),
`addrs_by_cidr` returns exactly the stored records contained in the
transient CIDR record, in insertion order of the entries. -/
theorem claim_C3_addrs_by_cidr (m : IPManager) (cidrText : String) (c : Address)
    (hp : parseAddress cidrText "" = .ok c) (h32 : c.pfx ≤ 32) :
    m.addrs_by_cidr cidrText = .ok ((dictValues m.storage).filter (fun r => specContainsB c r)) := by
  unfold IPManager.addrs_by_cidr
  rw [hp]
  exact filterContains_eq c h32 _

/-- Witness for C3: the spec's example — searching `137.43.4/24` over
the demo store returns the three host entries and excludes the /16
network entry. -/
theorem claim_C3_addrs_by_cidr_witness :
    demoStore.addrs_by_cidr "137.43.4/24" = .ok [rec18, rec19, rec20] := by
  rw [claim_C3_addrs_by_cidr demoStore "137.43.4/24" rec24 (by decide) (by decide)]
  decide

/-- Claim C4 counterexample: the claim quantifies over every other
record, but a record with a negative prefix (e.g. parsed from
"1.2.3.4" with suffix "-1") is not contained in the `0.0.0.0/0`
record, because
`self.prefix <= other.prefix` fails at `0 <= -1`. -/
theorem claim_C4_counterexample :
    parseAddress "0.0.0.0/0" "" = .ok rec0 ∧
    parseAddress "1.2.3.4/-1" "" = .ok recNeg ∧
    containsB rec0 recNeg = .ok false := by
  decide

/-- Claim C4 (amended): a record with prefix 0 contains every record
whose prefix is nonnegative (the shift by 32 maps both 32-bit values to
0, and `0 ≤ other.pfx` holds). -/
theorem claim_C4_pfx0_contains (a b : Address) (ha : a.pfx = 0) (hb : 0 ≤ b.pfx)
    (hav : a.value < 2 ^ 32) (hbv : b.value < 2 ^ 32) :
    containsB a b = .ok true := by
  have hn : ¬ (32 - a.pfx < 0) := by omega
  have h32 : (32 - a.pfx).toNat = 32 := by omega
  simp only [containsB, hn, if_false, h32, Nat.shiftRight_eq_div_pow]
  rw [Nat.div_eq_of_lt hav, Nat.div_eq_of_lt hbv, ha]
  simp [hb]

/-- Witness for C4: `0.0.0.0/0` contains `200.1.2.3/32`. -/
theorem claim_C4_pfx0_contains_witness : containsB rec0 rec200 = .ok true :=
  claim_C4_pfx0_contains rec0 rec200 (by decide) (by decide) (by decide) (by decide)

/-- Claim C6: inserting an address that is already a literal key of the
storage is a no-op reported as a duplicate: the state (storage and
file) is unchanged, the original record is still the one looked up, and
the outcome is `duplicate`, not an exception. -/
theorem claim_C6_duplicate_noop (m : IPManager) (address note : String) (b : Bool)
    (h : dictHas m.storage address = true) :
    m.insert address note b = (m, .duplicate) ∧
    (m.insert address note b).1.storage.length = m.storage.length ∧
    (m.insert address note b).1.file = m.file ∧
    (m.insert address note b).1.lookup address = m.lookup address := by
  simp [IPManager.insert, h]

/-- Witness for C6: re-inserting `137.43.4.18` with a different note
into the demo store is skipped as a duplicate. -/
theorem claim_C6_duplicate_noop_witness :
    demoStore.insert "137.43.4.18" "other" true = (demoStore, .duplicate) :=
  (claim_C6_duplicate_noop demoStore "137.43.4.18" "other" true (by decide)).1

/-- Claim C7: when the append to the backing file fails, no exception
propagates and the in-memory state is exactly as before the call (the
outcome over a failing append is always the non-fatal `duplicate` or
`ioFailure`). -/
theorem claim_C7_append_failure (m : IPManager) (address note : String) :
    (m.insert address note false).1 = m ∧
    ((m.insert address note false).2 = .duplicate ∨
     (m.insert address note false).2 = .ioFailure) := by
  by_cases h : dictHas m.storage address <;> simp [IPManager.insert, h]

/-- Claim C10: an integer prefix token above 32 is accepted at parse
time, but `__contains__` then raises on the negative shift count, so an
`addrs_by_cidr` scan over a nonempty store fails even though the CIDR
text itself parsed. -/
theorem claim_C10_pfx_above_32 :
    parseAddress "1.2.3.4/40" "" = .ok rec40 ∧
    (∀ a b : Address, 32 < a.pfx → containsB a b = .error .negShift) ∧
    (∀ (m : IPManager) (cidrText : String) (c : Address),
       parseAddress cidrText "" = .ok c → 32 < c.pfx → m.storage ≠ [] →
       m.addrs_by_cidr cidrText = .error .negShift) := by
  refine ⟨by decide, ?_, ?_⟩
  · intro a b h
    simp [containsB, show 32 - a.pfx < 0 by omega]
  · intro m cidrText c hp hpfx hne
    unfold IPManager.addrs_by_cidr
    rw [hp]
    cases hst : m.storage with
    | nil => exact absurd hst hne
    | cons x xs =>
      simp [dictValues, filterContains, containsB, show 32 - c.pfx < 0 by omega]

/-- Witness for C10: scanning the (nonempty) demo store with
`1.2.3.4/40` raises instead of returning a list. -/
theorem claim_C10_pfx_above_32_witness :
    demoStore.addrs_by_cidr "1.2.3.4/40" = .error .negShift :=
  claim_C10_pfx_above_32.2.2 demoStore "1.2.3.4/40" rec40
    claim_C10_pfx_above_32.1 (by decide) (by decide)

/-- Claim C5: after a successful insert on a store whose backing file
holds the manager's own encoding of prior rows, reloading a store from
the resulting file content finds the inserted address with exactly the
inserted note — including notes holding delimiter or quote characters,
which the quoted escaped encoding preserves.  (Fields must not contain
a carriage return: text-mode universal-newline translation would alter
one on reload.) -/
theorem claim_C5_roundtrip (rows : List (String × String)) (address note : String)
    (m : IPManager) (rec : Address)
    (hinit : IPManager.init (String.mk (encodeRows rows)) = .ok m)
    (hnew : dictGet m.storage address = none)
    (hrec : parseAddress address note = .ok rec)
    (hcr1 : '\r' ∉ address.data) (hcr2 : '\r' ∉ note.data)
    (hcr3 : ∀ p ∈ rows, '\r' ∉ (p.1 : String).data ∧ '\r' ∉ (p.2 : String).data) :
    (m.insert address note true).2 = .inserted ∧
    ∃ m2, IPManager.init (m.insert address note true).1.file = .ok m2 ∧
      ∃ r, m2.lookup address = some r ∧ r.note = note := by
  have hmfields : m.file = String.mk (encodeRows rows) ∧
      loadStorage (String.mk (encodeRows rows)) = .ok m.storage := by
    unfold IPManager.init at hinit
    cases hl : loadStorage (String.mk (encodeRows rows)) with
    | error e => rw [hl] at hinit; simp [Except.map] at hinit
    | ok st =>
      rw [hl] at hinit
      simp only [Except.map, Except.ok.injEq] at hinit
      rw [← hinit]
      exact ⟨rfl, rfl⟩
  have hdup : dictHas m.storage address = false := by
    unfold dictHas
    rw [hnew]
    rfl
  have hins : m.insert address note true =
      (⟨m.file ++ String.mk (encodeRowC address.data note.data),
        upsert m.storage address rec⟩, .inserted) := by
    unfold IPManager.insert
    rw [hdup]
    simp [hrec]
  refine ⟨by rw [hins], ?_⟩
  have hfile : (m.insert address note true).1.file
      = String.mk (encodeRows (rows ++ [(address, note)])) := by
    rw [hins, hmfields.1]
    rw [string_mk_append, encodeRows_append]
    rw [show encodeRows [(address, note)] = encodeRowC address.data note.data from by
      simp [encodeRows]]
  have hfold0 : rowsFold [] (rows.map (fun p => [p.1, p.2])) = .ok m.storage := by
    have h := hmfields.2
    unfold loadStorage at h
    rw [show (String.mk (encodeRows rows)).data = encodeRows rows from rfl,
        parseFile_encodeRows] at h
    exact h
  have hload2 : loadStorage (String.mk (encodeRows (rows ++ [(address, note)])))
      = .ok (upsert m.storage address rec) := by
    unfold loadStorage
    rw [show (String.mk (encodeRows (rows ++ [(address, note)]))).data
          = encodeRows (rows ++ [(address, note)]) from rfl,
        parseFile_encodeRows, List.map_append,
        rowsFold_append [] m.storage _ _ hfold0]
    simp [rowsFold, hrec]
  refine ⟨⟨String.mk (encodeRows (rows ++ [(address, note)])), upsert m.storage address rec⟩,
    ?_, rec, ?_, parseAddress_note address note rec hrec⟩
  · rw [hfile]
    unfold IPManager.init
    rw [hload2]
    rfl
  · show dictGet (upsert m.storage address rec) address = some rec
    exact dictGet_upsert_self m.storage address rec hnew

/-- Witness for C5: inserting `("137.43.4.18", "host")` into an empty
store and reloading from the resulting file yields the note `"host"`. -/
theorem claim_C5_roundtrip_witness :
    ((⟨"", []⟩ : IPManager).insert "137.43.4.18" "host" true).2 = .inserted ∧
    ∃ m2, IPManager.init ((⟨"", []⟩ : IPManager).insert "137.43.4.18" "host" true).1.file = .ok m2 ∧
      ∃ r, m2.lookup "137.43.4.18" = some r ∧ r.note = "host" :=
  claim_C5_roundtrip [] "137.43.4.18" "host" ⟨"", []⟩ rec18
    (by rfl) (by rfl) (by rfl) (by decide) (by decide) (by simp)

end IpMgr
